import Mathlib

/-!
Verification of the custodial Stellar wallet core of `juby-app-stellar`.

The embedding follows `src/lib/services/stellar-wallet.service.ts` (the
production variant backed by Prisma) and `src/unnamed/part_009` (the demo
variant backed by an in-memory map).  Bytes are modelled as `Nat` values
below 256, buffers as `List Nat`, the Prisma `stellar_wallets` table as a
list of records, timestamps as `Nat`, and each operation returns its
result together with the resulting store and the list of persistent
writes it performed.

External collaborators (Node's `crypto` AES-256-GCM primitive, the
Stellar SDK's keypair derivation and transaction signing, Prisma's id
generation and the random draws) are not code of this repository; they
enter the model as explicit parameters: the keyed AES-256 block cipher
as a function `E : Nat → Nat` on 128-bit blocks, the freshly drawn
keypair and IV as arguments, key derivation and signing as function
arguments.  The GCM mode of operation itself (CTR encryption plus a
GHASH-based tag, NIST SP 800-38D with a 96-bit IV and no associated
data) is implemented concretely, since `createCipheriv("aes-256-gcm")`
selects exactly that construction.
-/

set_option maxRecDepth 100000

namespace JubyStellar

/-! ### Hex encoding and decoding (Node `Buffer` semantics)

`Buffer.from(s, "hex")` decodes two characters per byte and stops at the
first pair containing a non-hex character (the result is truncated, not
rejected); a trailing odd character is dropped.  `buf.toString("hex")`
emits lowercase digits. -/

/-- Value of one hex digit, accepting both cases, `none` otherwise. -/
def hexDigitVal (c : Char) : Option Nat :=
  let n := c.toNat
  if 48 ≤ n ∧ n ≤ 57 then some (n - 48)
  else if 97 ≤ n ∧ n ≤ 102 then some (n - 87)
  else if 65 ≤ n ∧ n ≤ 70 then some (n - 55)
  else none

/-- Decode hex characters pairwise, truncating at the first invalid pair
(Node `Buffer.from(·, "hex")` behaviour). -/
def hexDecodeAux : List Char → List Nat
  | c1 :: c2 :: rest =>
    match hexDigitVal c1, hexDigitVal c2 with
    | some h, some l => (16 * h + l) :: hexDecodeAux rest
    | _, _ => []
  | _ => []

/-- Decode a hex string to bytes as `Buffer.from(s, "hex")` does. -/
def hexDecode (s : String) : List Nat := hexDecodeAux s.data

/-- Lowercase hex digit for a value below 16. -/
def hexDigitChar (n : Nat) : Char :=
  if n < 10 then Char.ofNat (48 + n) else Char.ofNat (87 + n)

/-- Two lowercase hex characters of one byte. -/
def hexEncodeByte (b : Nat) : List Char :=
  [hexDigitChar (b / 16), hexDigitChar (b % 16)]

/-- Encode bytes to a lowercase hex string as `buf.toString("hex")` does. -/
def hexEncode (bs : List Nat) : String := ⟨bs.flatMap hexEncodeByte⟩

theorem hexDigitVal_hexDigitChar : ∀ n < 16, hexDigitVal (hexDigitChar n) = some n := by
  decide

theorem hexDecodeAux_flatMap_encode (bs : List Nat) (h : ∀ b ∈ bs, b < 256) :
    hexDecodeAux (bs.flatMap hexEncodeByte) = bs := by
  induction bs with
  | nil => rfl
  | cons b rest ih =>
    have hb : b < 256 := h b (List.mem_cons_self b rest)
    have hhi : b / 16 < 16 := Nat.div_lt_of_lt_mul (by omega)
    have hlo : b % 16 < 16 := Nat.mod_lt _ (by omega)
    have e1 := hexDigitVal_hexDigitChar (b / 16) hhi
    have e2 := hexDigitVal_hexDigitChar (b % 16) hlo
    simp only [List.flatMap_cons, hexEncodeByte, List.cons_append, List.nil_append,
      hexDecodeAux, e1, e2]
    have ih' := ih (fun x hx => h x (List.mem_cons_of_mem _ hx))
    simp only [List.flatMap] at ih'
    have hb' : 16 * (b / 16) + b % 16 = b := by omega
    simpa [List.append_eq, hb'] using ih'

theorem hexDecode_hexEncode (bs : List Nat) (h : ∀ b ∈ bs, b < 256) :
    hexDecode (hexEncode bs) = bs :=
  hexDecodeAux_flatMap_encode bs h

/-! ### The GCM construction over an abstract 128-bit block cipher

`E` stands for the AES-256 block cipher keyed with the service's
32-byte master key; AES itself lives inside Node's `crypto` library and
is opaque to this repository, so every property below is proved for an
arbitrary block function. -/

/-- Big-endian value of a byte list. -/
def bytesToNat (bs : List Nat) : Nat := bs.foldl (fun acc b => acc * 256 + b % 256) 0

/-- Fixed-width big-endian byte list of a value. -/
def natToBytes (len n : Nat) : List Nat :=
  (List.range len).map (fun i => n / 256 ^ (len - 1 - i) % 256)

/-- The GCM reduction constant `R = 0xe1 ∥ 0¹²⁰`. -/
def gcmR : Nat := 0xe1000000000000000000000000000000

/-- Multiplication in GF(2¹²⁸) with the GCM bit order
(NIST SP 800-38D, algorithm 1). -/
def mulGF (x y : Nat) : Nat :=
  ((List.range 128).foldl
    (fun zv i =>
      let z := if x.testBit (127 - i) then zv.1 ^^^ zv.2 else zv.1
      let v := if zv.2.testBit 0 then (zv.2 >>> 1) ^^^ gcmR else zv.2 >>> 1
      (z, v))
    ((0 : Nat), y)).1

/-- GHASH over a list of 128-bit blocks under hash key `H`. -/
def ghash (H : Nat) (blocks : List Nat) : Nat :=
  blocks.foldl (fun y b => mulGF (y ^^^ b) H) 0

/-- Accumulate bytes into 16-byte chunks (structurally, so that the
kernel can evaluate it): `acc` is the chunk under construction. -/
def chunk16Aux : List Nat → List Nat → List (List Nat)
  | [], acc => if acc = [] then [] else [acc]
  | b :: bs, acc =>
    if acc.length = 15 then (acc ++ [b]) :: chunk16Aux bs []
    else chunk16Aux bs (acc ++ [b])

/-- Split a byte list into 16-byte chunks (the last one possibly short). -/
def chunk16 (bs : List Nat) : List (List Nat) := chunk16Aux bs []

/-- A (possibly short) chunk zero-padded into one 128-bit block. -/
def padBlock (bs : List Nat) : Nat :=
  bytesToNat (bs ++ List.replicate (16 - bs.length) 0)

/-- The pre-counter block `J₀ = IV ∥ 0³¹ ∥ 1` for a 96-bit IV. -/
def gcmJ0 (iv : List Nat) : Nat := bytesToNat iv * 2 ^ 32 + 1

/-- The `i`-th CTR counter block, `inc32^(i+1)(J₀)`. -/
def gcmCtrBlock (iv : List Nat) (i : Nat) : Nat :=
  bytesToNat iv * 2 ^ 32 + (2 + i) % 2 ^ 32

/-- `len` bytes of CTR keystream. -/
def keystream (E : Nat → Nat) (iv : List Nat) (len : Nat) : List Nat :=
  ((List.range ((len + 15) / 16)).flatMap
    (fun i => natToBytes 16 (E (gcmCtrBlock iv i)))).take len

/-- CTR en/decryption: XOR the message against the keystream.  GCM uses
the same operation in both directions. -/
def ctrCrypt (E : Nat → Nat) (iv : List Nat) (msg : List Nat) : List Nat :=
  List.zipWith (fun a b => a ^^^ b) (keystream E iv msg.length) msg

/-- The 16-byte GCM authentication tag over a ciphertext with empty
associated data: `E(J₀) ⊕ GHASH_H(C ∥ len)` with `H = E(0¹²⁸)`. -/
def gcmTag (E : Nat → Nat) (iv ct : List Nat) : List Nat :=
  let H := E 0
  let S := ghash H ((chunk16 ct).map padBlock ++ [ct.length * 8 % 2 ^ 64])
  natToBytes 16 (E (gcmJ0 iv) ^^^ S)

theorem length_natToBytes (len n : Nat) : (natToBytes len n).length = len := by
  simp [natToBytes]

theorem mem_natToBytes_lt (len n : Nat) : ∀ b ∈ natToBytes len n, b < 256 := by
  intro b hb
  simp only [natToBytes, List.mem_map] at hb
  obtain ⟨i, _, rfl⟩ := hb
  exact Nat.mod_lt _ (by norm_num)

theorem length_flatMap_const (l : List Nat) {f : Nat → List Nat}
    (h : ∀ i, (f i).length = 16) : (l.flatMap f).length = 16 * l.length := by
  induction l with
  | nil => simp
  | cons a t ih =>
    simp only [List.flatMap_cons, List.length_append, ih, h, List.length_cons]
    omega

theorem length_keystream (E : Nat → Nat) (iv : List Nat) (len : Nat) :
    (keystream E iv len).length = len := by
  have hlen := length_flatMap_const (List.range ((len + 15) / 16))
    (f := fun i => natToBytes 16 (E (gcmCtrBlock iv i))) (fun i => length_natToBytes 16 _)
  simp only [keystream, List.length_take, hlen, List.length_range]
  have h1 := Nat.div_add_mod (len + 15) 16
  have h2 : (len + 15) % 16 < 16 := Nat.mod_lt _ (by norm_num)
  omega

theorem mem_keystream_lt (E : Nat → Nat) (iv : List Nat) (len : Nat) :
    ∀ b ∈ keystream E iv len, b < 256 := by
  intro b hb
  have hb' := List.take_subset _ _ hb
  simp only [List.mem_flatMap] at hb'
  obtain ⟨i, _, hbi⟩ := hb'
  exact mem_natToBytes_lt 16 _ b hbi

theorem zipWith_xor_cancel : ∀ (ks msg : List Nat), ks.length = msg.length →
    List.zipWith (fun a b => a ^^^ b) ks (List.zipWith (fun a b => a ^^^ b) ks msg) = msg
  | [], [], _ => rfl
  | k :: ks, m :: msg, h => by
    simp only [List.zipWith_cons_cons]
    rw [Nat.xor_cancel_left, zipWith_xor_cancel ks msg (by simpa using h)]
  | [], _ :: _, h => by simp at h
  | _ :: _, [], h => by simp at h

theorem zipWith_xor_lt : ∀ (ks msg : List Nat), (∀ b ∈ ks, b < 256) → (∀ b ∈ msg, b < 256) →
    ∀ b ∈ List.zipWith (fun a b => a ^^^ b) ks msg, b < 256
  | [], _, _, _ => by simp
  | _ :: _, [], _, _ => by simp
  | k :: ks, m :: msg, hks, hmsg => by
    intro b hb
    simp only [List.zipWith_cons_cons, List.mem_cons] at hb
    rcases hb with rfl | hb
    · have h1 : k < 2 ^ 8 := hks k (List.mem_cons_self _ _)
      have h2 : m < 2 ^ 8 := hmsg m (List.mem_cons_self _ _)
      exact Nat.xor_lt_two_pow h1 h2
    · exact zipWith_xor_lt ks msg (fun x hx => hks x (List.mem_cons_of_mem _ hx))
        (fun x hx => hmsg x (List.mem_cons_of_mem _ hx)) b hb

theorem length_ctrCrypt (E : Nat → Nat) (iv msg : List Nat) :
    (ctrCrypt E iv msg).length = msg.length := by
  simp [ctrCrypt, List.length_zipWith, length_keystream]

theorem mem_ctrCrypt_lt (E : Nat → Nat) (iv msg : List Nat) (h : ∀ b ∈ msg, b < 256) :
    ∀ b ∈ ctrCrypt E iv msg, b < 256 :=
  zipWith_xor_lt _ msg (mem_keystream_lt E iv msg.length) h

theorem ctrCrypt_ctrCrypt (E : Nat → Nat) (iv msg : List Nat) :
    ctrCrypt E iv (ctrCrypt E iv msg) = msg := by
  rw [ctrCrypt, length_ctrCrypt, ctrCrypt]
  exact zipWith_xor_cancel _ _ (by simp [length_keystream, List.length_zipWith])

theorem length_gcmTag (E : Nat → Nat) (iv ct : List Nat) : (gcmTag E iv ct).length = 16 :=
  length_natToBytes 16 _

theorem mem_gcmTag_lt (E : Nat → Nat) (iv ct : List Nat) : ∀ b ∈ gcmTag E iv ct, b < 256 :=
  mem_natToBytes_lt 16 _

/-! ### The wallet service's cipher layer

`encryptSecretKey`/`decryptSecretKey` from
`src/lib/services/stellar-wallet.service.ts` (identical in the demo
variant).  The random 12-byte IV drawn by `crypto.randomBytes(12)` is an
explicit argument; ciphertext, IV and tag travel hex-encoded exactly as
in the source. -/

/-- The `EncryptedKeyData` interface: hex ciphertext, hex IV, hex tag. -/
structure EncryptedKeyData where
  encrypted : String
  iv : String
  tag : String
deriving DecidableEq, Repr

/-- The distinguishable failure conditions of the subsystem.  The source
throws untyped `Error`s; the constructors here record which distinct
source condition fired (missing env key, bad key length, missing wallet,
Prisma unique-constraint violation P2002, and the three decrypt-layer
failures). -/
inductive ServiceError where
  | missingMasterKey
  | invalidKeyLength
  | walletNotFound (userId : String)
  | uniqueViolation
  | invalidIvLength
  | invalidTagLength
  | authenticationFailure
deriving DecidableEq, Repr

/-- `encryptSecretKey` (service.ts lines 206–225): AES-256-GCM under the
master key's block cipher `E` with the freshly drawn 12-byte `iv`,
returning hex ciphertext, hex IV and hex auth tag. -/
def encryptSecretKey (E : Nat → Nat) (iv secretKey : List Nat) : EncryptedKeyData :=
  let encrypted := ctrCrypt E iv secretKey
  { encrypted := hexEncode encrypted
    iv := hexEncode iv
    tag := hexEncode (gcmTag E iv encrypted) }

/-- `decryptSecretKey` (service.ts lines 235–253): hex-decode the three
parts, then AES-256-GCM decrypt.  The tag comparison is the GCM
verification performed by `decipher.final()`: on mismatch the call
throws and no plaintext crosses the function boundary.  The two length
checks are Modelled from the spec: they happen inside Node's
`createDecipheriv`/`setAuthTag` (an external library, not repository
code), which the spec contracts as `MalformedInput` for a wrong-length
nonce or tag. -/
def decryptSecretKey (E : Nat → Nat) (encrypted ivHex tagHex : String) :
    Except ServiceError (List Nat) :=
  let iv := hexDecode ivHex
  let tag := hexDecode tagHex
  let ct := hexDecode encrypted
  if iv.length ≠ 12 then .error .invalidIvLength
  else if tag.length ≠ 16 then .error .invalidTagLength
  else if tag ≠ gcmTag E iv ct then .error .authenticationFailure
  else .ok (ctrCrypt E iv ct)

/-- **C3** — Round-trip: for every master-key block-cipher instance `E`
(one per 32-byte MasterKey, supplied by the crypto library), every
12-byte nonce draw and every non-empty plaintext secret, decrypting the
`(ciphertext, nonce, authTag)` triple produced by `encryptSecretKey`
under the same `E` returns exactly the original plaintext. -/
theorem encrypt_decrypt_roundtrip (E : Nat → Nat) (iv pt : List Nat)
    (hiv : iv.length = 12) (hivb : ∀ b ∈ iv, b < 256)
    (hptb : ∀ b ∈ pt, b < 256) (_hne : pt ≠ []) :
    decryptSecretKey E (encryptSecretKey E iv pt).encrypted
      (encryptSecretKey E iv pt).iv (encryptSecretKey E iv pt).tag = .ok pt := by
  have hct : ∀ b ∈ ctrCrypt E iv pt, b < 256 := mem_ctrCrypt_lt E iv pt hptb
  have htag : ∀ b ∈ gcmTag E iv (ctrCrypt E iv pt), b < 256 := mem_gcmTag_lt E iv _
  simp only [encryptSecretKey, decryptSecretKey]
  rw [hexDecode_hexEncode iv hivb, hexDecode_hexEncode _ hct, hexDecode_hexEncode _ htag]
  simp [hiv, length_gcmTag, ctrCrypt_ctrCrypt]

/-- Witness for C3 at a concrete key instance, nonce and plaintext. -/
theorem encrypt_decrypt_roundtrip_witness :
    decryptSecretKey (fun b => b + 3)
      (encryptSecretKey (fun b => b + 3) (List.replicate 12 0) [83, 65, 70]).encrypted
      (encryptSecretKey (fun b => b + 3) (List.replicate 12 0) [83, 65, 70]).iv
      (encryptSecretKey (fun b => b + 3) (List.replicate 12 0) [83, 65, 70]).tag
      = .ok [83, 65, 70] :=
  encrypt_decrypt_roundtrip (fun b => b + 3) (List.replicate 12 0) [83, 65, 70]
    (by decide) (by decide) (by decide) (by decide)

/-! ### The persisted wallet store

One row of the Prisma `stellar_wallets` table
(`src/prisma/migrations/20251122235030_initial_schema/migration.sql`):
`last_used` is nullable and unset on insert, `created_at` defaults to
the insert time, and `user_id` carries the unique index
`stellar_wallets_user_id_key` that makes a duplicate insert raise
Prisma's unique-constraint violation. -/

/-- A `stellar_wallets` row. -/
structure StellarWallet where
  id : String
  userId : String
  stellarPublicKey : String
  encryptedSecretKey : String
  encryptionIv : String
  encryptionTag : String
  createdAt : Nat
  lastUsed : Option Nat
deriving DecidableEq, Repr

/-- The table, in insertion order. -/
abbrev DB := List StellarWallet

/-- `prisma.stellarWallet.findUnique({ where: { userId } })`. -/
def findUnique (db : DB) (uid : String) : Option StellarWallet :=
  db.find? (fun r => r.userId == uid)

/-- `prisma.stellarWallet.create`: the unique index on `user_id` makes
the insert fail with a unique-constraint violation when a row for the
same user already exists. -/
def prismaCreate (db : DB) (w : StellarWallet) : Except ServiceError DB :=
  if (db.find? (fun r => r.userId == w.userId)).isSome then .error .uniqueViolation
  else .ok (db ++ [w])

/-- The persistent writes an operation performs, in order. -/
inductive WriteEvent where
  | createdRecord (id : String)
  | touchedLastUsed (id : String)
deriving DecidableEq, Repr

/-- The `CreateWalletResult` interface. -/
structure CreateWalletResult where
  userId : String
  stellarPublicKey : String
  walletId : String
deriving DecidableEq, Repr

/-- A Stellar keypair as the SDK presents it: the public address and the
secret seed (as bytes of the `S...` string). -/
structure Keypair where
  publicKey : String
  secret : List Nat
deriving DecidableEq, Repr

/-- `createWalletForUser` (service.ts lines 65–105), with the database
snapshots seen by its two Prisma calls held apart: `dbAtFind` is the
table when `findUnique` runs and `dbAtInsert` the table when `create`
runs — they differ exactly when a concurrent request wrote between the
two calls.  `kp` is the keypair drawn by `Keypair.random()`, `ivDraw`
the IV drawn inside `encryptSecretKey`, `newId` the id Prisma generates,
`now` the insert timestamp.  Note the source wraps the insert in no
try/catch: a unique-constraint violation propagates. -/
def createWalletForUserRace (E : Nat → Nat) (kp : Keypair) (ivDraw : List Nat)
    (newId : String) (now : Nat) (dbAtFind dbAtInsert : DB) (uid : String) :
    Except ServiceError CreateWalletResult × DB × List WriteEvent :=
  match findUnique dbAtFind uid with
  | some existing => (.ok ⟨existing.userId, existing.stellarPublicKey, existing.id⟩, dbAtInsert, [])
  | none =>
    let enc := encryptSecretKey E ivDraw kp.secret
    let w : StellarWallet :=
      ⟨newId, uid, kp.publicKey, enc.encrypted, enc.iv, enc.tag, now, none⟩
    match prismaCreate dbAtInsert w with
    | .error e => (.error e, dbAtInsert, [])
    | .ok db' => (.ok ⟨w.userId, w.stellarPublicKey, w.id⟩, db', [.createdRecord newId])

/-- `createWalletForUser` as a single uninterleaved call: both Prisma
calls see the same table. -/
def createWalletForUser (E : Nat → Nat) (kp : Keypair) (ivDraw : List Nat)
    (newId : String) (now : Nat) (db : DB) (uid : String) :
    Except ServiceError CreateWalletResult × DB × List WriteEvent :=
  createWalletForUserRace E kp ivDraw newId now db db uid

/-- `getUserStellarAddress` (service.ts lines 113–123): a pure read. -/
def getUserStellarAddress (db : DB) (uid : String) :
    Except ServiceError String × DB × List WriteEvent :=
  match findUnique db uid with
  | none => (.error (.walletNotFound uid), db, [])
  | some w => (.ok w.stellarPublicKey, db, [])

/-- `getUserWallet` (service.ts lines 131–141): a pure read of the full
row. -/
def getUserWallet (db : DB) (uid : String) :
    Except ServiceError StellarWallet × DB × List WriteEvent :=
  match findUnique db uid with
  | none => (.error (.walletNotFound uid), db, [])
  | some w => (.ok w, db, [])

/-- `getKeypairForUser` (service.ts lines 150–170): fetch the row,
decrypt the secret, rebuild the keypair (`Keypair.fromSecret`, whose
address derivation is the SDK's and enters as `pkDerive`), then touch
`lastUsed` via `prisma.stellarWallet.update`. -/
def getKeypairForUser (E : Nat → Nat) (pkDerive : List Nat → String) (now : Nat)
    (db : DB) (uid : String) : Except ServiceError Keypair × DB × List WriteEvent :=
  match getUserWallet db uid with
  | (.error e, _, _) => (.error e, db, [])
  | (.ok w, _, _) =>
    match decryptSecretKey E w.encryptedSecretKey w.encryptionIv w.encryptionTag with
    | .error e => (.error e, db, [])
    | .ok secretKey =>
      let kp : Keypair := ⟨pkDerive secretKey, secretKey⟩
      let db' := db.map (fun r => if r.id == w.id then { r with lastUsed := some now } else r)
      (.ok kp, db', [.touchedLastUsed w.id])

/-- `signTransactionForUser` (service.ts lines 180–198): obtain the
keypair, then parse and sign the XDR blob.  Parsing and signing belong
to the Stellar SDK and enter as the opaque `signFn` applied to the blob
and the plaintext secret. -/
def signTransactionForUser (E : Nat → Nat) (pkDerive : List Nat → String)
    (signFn : String → List Nat → String) (now : Nat) (db : DB) (uid xdr : String) :
    Except ServiceError String × DB × List WriteEvent :=
  match getKeypairForUser E pkDerive now db uid with
  | (.error e, db', log) => (.error e, db', log)
  | (.ok kp, db', log) => (.ok (signFn xdr kp.secret), db', log)

/-- `userHasWallet` (service.ts lines 261–267): a pure read. -/
def userHasWallet (db : DB) (uid : String) : Except ServiceError Bool × DB × List WriteEvent :=
  (.ok (findUnique db uid).isSome, db, [])

/-- `getAllWalletAddresses` (service.ts lines 274–280): a pure read. -/
def getAllWalletAddresses (db : DB) : Except ServiceError (List String) × DB × List WriteEvent :=
  (.ok (db.map (fun w => w.stellarPublicKey)), db, [])

/-! ### Constructor and singleton accessor -/

/-- The service instance: just the decoded master key. -/
structure StellarWalletService where
  masterKey : List Nat
deriving DecidableEq, Repr

/-- The constructor's key selection `masterKeyHex || process.env.ENCRYPTION_MASTER_KEY`
with JavaScript falsiness: an empty explicit argument falls through to
the environment. -/
def selectKeyHex (masterKeyHex envKey : Option String) : Option String :=
  match masterKeyHex with
  | some s => if s = "" then envKey else some s
  | none => envKey

/-- The `StellarWalletService` constructor (service.ts lines 41–57):
reject a missing/empty key, reject a key whose *string length* is not
64, then decode it with `Buffer.from(keyHex, "hex")`. -/
def serviceConstructor (masterKeyHex envKey : Option String) :
    Except ServiceError StellarWalletService :=
  match selectKeyHex masterKeyHex envKey with
  | none => .error .missingMasterKey
  | some keyHex =>
    if keyHex = "" then .error .missingMasterKey
    else if keyHex.length ≠ 64 then .error .invalidKeyLength
    else .ok ⟨hexDecode keyHex⟩

/-- `getStellarWalletService` (service.ts lines 295–302): the
module-level singleton.  `inst` is the mutable
`stellarWalletServiceInstance` and is returned updated; the key argument
is only consulted when no instance exists yet. -/
def getStellarWalletService (inst : Option StellarWalletService)
    (masterKeyHex envKey : Option String) :
    Except ServiceError (StellarWalletService × Option StellarWalletService) :=
  match inst with
  | some s => .ok (s, some s)
  | none =>
    match serviceConstructor masterKeyHex envKey with
    | .error e => .error e
    | .ok s => .ok (s, some s)

/-! ### The demo variant (`src/unnamed/part_009`)

`createWalletForUser` against the in-memory `__mockWallets` map: a
missing user does not get a fresh random keypair but the one fixed
keypair derived from `DEMO_STELLAR_SECRET_KEY` (or its hardcoded
fallback) — the same for every user.  `demoKp` is that fixed keypair;
the record's `lastUsed` is set at creation in this variant. -/
def demoCreateWalletForUser (E : Nat → Nat) (demoKp : Keypair) (ivDraw : List Nat)
    (newId : String) (now : Nat) (mw : DB) (uid : String) :
    Except ServiceError CreateWalletResult × DB :=
  match findUnique mw uid with
  | some existing => (.ok ⟨existing.userId, existing.stellarPublicKey, existing.id⟩, mw)
  | none =>
    let enc := encryptSecretKey E ivDraw demoKp.secret
    let w : StellarWallet :=
      ⟨newId, uid, demoKp.publicKey, enc.encrypted, enc.iv, enc.tag, now, some now⟩
    (.ok ⟨w.userId, w.stellarPublicKey, w.id⟩, mw ++ [w])

/-- The public async methods of the exported `StellarWalletService`
class, in declaration order (TypeScript has no access modifier on any of
them, so all are callable by any holder of the instance). -/
def publicMethods : List String :=
  ["createWalletForUser", "getUserStellarAddress", "getUserWallet",
   "getKeypairForUser", "signTransactionForUser", "userHasWallet",
   "getAllWalletAddresses"]

/-! ### Store lemmas -/

theorem countP_eq_one_of_nodup (db : DB) (uid : String) (w : StellarWallet)
    (hnd : (db.map (fun r => r.userId)).Nodup) (hf : findUnique db uid = some w) :
    db.countP (fun r => r.userId == uid) = 1 := by
  induction db with
  | nil => simp [findUnique] at hf
  | cons a t ih =>
    simp only [List.map_cons, List.nodup_cons] at hnd
    simp only [findUnique, List.find?_cons] at hf
    by_cases hp : (a.userId == uid) = true
    · rw [hp] at hf
      have ht0 : t.countP (fun r => r.userId == uid) = 0 := by
        rw [List.countP_eq_zero]
        intro r hr hruid
        refine hnd.1 ?_
        have h1 : r.userId = uid := by simpa using hruid
        have h2 : a.userId = uid := by simpa using hp
        rw [List.mem_map]
        exact ⟨r, hr, h1.trans h2.symm⟩
      simp [List.countP_cons, hp, ht0]
    · rw [Bool.not_eq_true] at hp
      rw [hp] at hf
      have ht1 := ih hnd.2 (by simpa [findUnique] using hf)
      simp [List.countP_cons, hp, ht1]

theorem findUnique_append_right (db : DB) (w : StellarWallet) (uid : String)
    (h : findUnique db uid = none) (hw : w.userId = uid) :
    findUnique (db ++ [w]) uid = some w := by
  induction db with
  | nil => simp [findUnique, List.find?_cons, hw]
  | cons a t ih =>
    simp only [findUnique, List.find?_cons] at h ih ⊢
    by_cases hpa : (a.userId == uid) = true
    · rw [hpa] at h
      cases h
    · rw [Bool.not_eq_true] at hpa
      rw [hpa] at h
      rw [List.cons_append, List.find?_cons, hpa]
      exact ih h

theorem countP_append_singleton (db : DB) (w : StellarWallet) (uid : String)
    (h : findUnique db uid = none) (hw : w.userId = uid) :
    (db ++ [w]).countP (fun r => r.userId == uid) = 1 := by
  rw [List.countP_append]
  have h0 : db.countP (fun r => r.userId == uid) = 0 := by
    rw [List.countP_eq_zero]
    intro r hr hruid
    simp only [findUnique] at h
    rw [List.find?_eq_none] at h
    exact absurd hruid (h r hr)
  simp [h0, hw]

/-- **C1** — Idempotent creation: after a first successful
`createWalletForUser` for `uid` (on a store satisfying the `user_id`
uniqueness constraint), a second call — with any other keypair draw, IV
draw, fresh id and timestamp, so the result depends on none of them —
returns the same public key, performs no write, leaves the store
untouched, and exactly one record for `uid` exists. -/
theorem create_idempotent (E E2 : Nat → Nat) (kp kp2 : Keypair) (iv iv2 : List Nat)
    (id1 id2 : String) (now now2 : Nat) (db : DB) (uid : String)
    (res : CreateWalletResult) (db' : DB) (log : List WriteEvent)
    (hnd : (db.map (fun r => r.userId)).Nodup)
    (h1 : createWalletForUser E kp iv id1 now db uid = (.ok res, db', log)) :
    (createWalletForUser E2 kp2 iv2 id2 now2 db' uid).1.map
        (fun r => r.stellarPublicKey) = .ok res.stellarPublicKey ∧
    (createWalletForUser E2 kp2 iv2 id2 now2 db' uid).2.1 = db' ∧
    (createWalletForUser E2 kp2 iv2 id2 now2 db' uid).2.2 = [] ∧
    db'.countP (fun r => r.userId == uid) = 1 := by
  cases hfind : findUnique db uid with
  | some w =>
    simp only [createWalletForUser, createWalletForUserRace, hfind, Prod.mk.injEq,
      Except.ok.injEq] at h1
    obtain ⟨hres, hdb, hlog⟩ := h1
    subst hdb
    refine ⟨?_, ?_, ?_, countP_eq_one_of_nodup db uid w hnd hfind⟩ <;>
      simp [createWalletForUser, createWalletForUserRace, Except.map, hfind, ← hres]
  | none =>
    have hf' : db.find? (fun r => r.userId == uid) = none := hfind
    simp only [createWalletForUser, createWalletForUserRace, hfind, prismaCreate, hf',
      Option.isSome_none, Bool.false_eq_true, if_false, Prod.mk.injEq,
      Except.ok.injEq] at h1
    obtain ⟨hres, hdb, hlog⟩ := h1
    subst hdb
    have hmem : findUnique (db ++ [(⟨id1, uid, kp.publicKey,
        (encryptSecretKey E iv kp.secret).encrypted, (encryptSecretKey E iv kp.secret).iv,
        (encryptSecretKey E iv kp.secret).tag, now, none⟩ : StellarWallet)]) uid =
        some ⟨id1, uid, kp.publicKey, (encryptSecretKey E iv kp.secret).encrypted,
          (encryptSecretKey E iv kp.secret).iv, (encryptSecretKey E iv kp.secret).tag,
          now, none⟩ :=
      findUnique_append_right db _ uid hfind rfl
    refine ⟨?_, ?_, ?_, countP_append_singleton db _ uid hfind rfl⟩ <;>
      simp [createWalletForUser, createWalletForUserRace, Except.map, hmem, ← hres]

/-- Witness for C1: a store already holding alice's wallet; both calls
take the existing-record path. -/
theorem create_idempotent_witness :
    (createWalletForUser (fun b => b) ⟨"G2", [9]⟩ (List.replicate 12 1) "w9" 7
        [⟨"w1", "alice", "GALICE", "aa", "bb", "cc", 0, none⟩] "alice").1.map
        (fun r => r.stellarPublicKey) = .ok "GALICE" ∧
    (createWalletForUser (fun b => b) ⟨"G2", [9]⟩ (List.replicate 12 1) "w9" 7
        [⟨"w1", "alice", "GALICE", "aa", "bb", "cc", 0, none⟩] "alice").2.1 =
        [⟨"w1", "alice", "GALICE", "aa", "bb", "cc", 0, none⟩] ∧
    (createWalletForUser (fun b => b) ⟨"G2", [9]⟩ (List.replicate 12 1) "w9" 7
        [⟨"w1", "alice", "GALICE", "aa", "bb", "cc", 0, none⟩] "alice").2.2 = [] ∧
    ([⟨"w1", "alice", "GALICE", "aa", "bb", "cc", 0, none⟩] : DB).countP
        (fun r => r.userId == "alice") = 1 :=
  create_idempotent (fun b => b) (fun b => b) ⟨"G1", [8]⟩ ⟨"G2", [9]⟩
    (List.replicate 12 0) (List.replicate 12 1) "w8" "w9" 6 7
    [⟨"w1", "alice", "GALICE", "aa", "bb", "cc", 0, none⟩] "alice"
    ⟨"alice", "GALICE", "w1"⟩ [⟨"w1", "alice", "GALICE", "aa", "bb", "cc", 0, none⟩] []
    (by decide) (by rfl)

/-- A record that already occupies the `bob` slot when the loser's
insert runs. -/
def bobRecord : StellarWallet := ⟨"w1", "bob", "GBOB", "aa", "bb", "cc", 0, none⟩

/-- **C2, counterexample** — the loser of a create race: `findUnique`
saw no record for `bob`, a concurrent winner then inserted `bobRecord`,
and the loser's own insert hits the unique constraint.  The source has
no try/catch around `prisma.stellarWallet.create`, so the
unique-violation error propagates to the caller instead of falling back
to a read of the winner's key. -/
theorem create_race_counterexample :
    createWalletForUserRace (fun _ => 0) ⟨"GX", [1]⟩ (List.replicate 12 0) "w2" 0
      [] [bobRecord] "bob" = (.error .uniqueViolation, [bobRecord], []) := by
  rfl

/-- **C2, amended** — whenever the insert snapshot already holds a
record for `uid` that the find snapshot did not, `createWalletForUser`
propagates the unique-constraint violation to the caller and performs
no write; there is no fallback read. -/
theorem create_race_propagates (E : Nat → Nat) (kp : Keypair) (iv : List Nat)
    (newId : String) (now : Nat) (dbF dbI : DB) (uid : String)
    (hfind : findUnique dbF uid = none)
    (hdup : (dbI.find? (fun r => r.userId == uid)).isSome = true) :
    createWalletForUserRace E kp iv newId now dbF dbI uid =
      (.error .uniqueViolation, dbI, []) := by
  simp only [createWalletForUserRace, hfind, prismaCreate, hdup, if_true]

/-- Witness for the amended C2 at a concrete race on `carol`. -/
theorem create_race_propagates_witness :
    createWalletForUserRace (fun _ => 1) ⟨"GY", [2]⟩ (List.replicate 12 0) "w3" 5
      [] [⟨"w1", "carol", "GCAROL", "aa", "bb", "cc", 0, none⟩] "carol" =
      (.error .uniqueViolation, [⟨"w1", "carol", "GCAROL", "aa", "bb", "cc", 0, none⟩], []) :=
  create_race_propagates (fun _ => 1) ⟨"GY", [2]⟩ (List.replicate 12 0) "w3" 5
    [] [⟨"w1", "carol", "GCAROL", "aa", "bb", "cc", 0, none⟩] "carol" (by rfl) (by rfl)

/-- **C4** — Decrypt failure contract: when the decoded tag does not
match the GCM tag recomputed over the supplied ciphertext and nonce,
`decryptSecretKey` fails with the authentication failure and releases no
plaintext; a wrong-length nonce or tag fails with the corresponding
malformed-input error (the nonce check runs first, as in
`createDecipheriv` before `setAuthTag`). -/
theorem decrypt_fail_contract (E : Nat → Nat) (encrypted ivHex tagHex : String) :
    ((hexDecode ivHex).length = 12 → (hexDecode tagHex).length = 16 →
      hexDecode tagHex ≠ gcmTag E (hexDecode ivHex) (hexDecode encrypted) →
      decryptSecretKey E encrypted ivHex tagHex = .error .authenticationFailure) ∧
    ((hexDecode ivHex).length ≠ 12 →
      decryptSecretKey E encrypted ivHex tagHex = .error .invalidIvLength) ∧
    ((hexDecode ivHex).length = 12 → (hexDecode tagHex).length ≠ 16 →
      decryptSecretKey E encrypted ivHex tagHex = .error .invalidTagLength) := by
  refine ⟨fun h1 h2 h3 => ?_, fun h1 => ?_, fun h1 h2 => ?_⟩ <;>
    simp_all [decryptSecretKey]

/-- Witness for C4: a tampered tag, a 1-byte nonce, and a 1-byte tag,
each against the same concrete cipher instance. -/
theorem decrypt_fail_contract_witness :
    decryptSecretKey (fun _ => 0) "" "000000000000000000000000"
        "000000000000000000000000000000ff" = .error .authenticationFailure ∧
    decryptSecretKey (fun _ => 0) "" "00" "00000000000000000000000000000000" =
      .error .invalidIvLength ∧
    decryptSecretKey (fun _ => 0) "" "000000000000000000000000" "00" =
      .error .invalidTagLength :=
  ⟨(decrypt_fail_contract (fun _ => 0) "" "000000000000000000000000"
      "000000000000000000000000000000ff").1 (by decide) (by decide) (by decide),
   (decrypt_fail_contract (fun _ => 0) "" "00"
      "00000000000000000000000000000000").2.1 (by decide),
   (decrypt_fail_contract (fun _ => 0) "" "000000000000000000000000" "00").2.2
      (by decide) (by decide)⟩

/-- A stored row whose three encryption fields are a valid encryption of
the secret `[7]` under the block-cipher instance `fun _ => 0`. -/
def aliceSecretRecord : StellarWallet :=
  ⟨"w1", "alice", "GALICE", "07", "000000000000000000000000",
    "00000000000000000000000000000000", 0, none⟩

/-- **C5, counterexample** — the class's public surface is not the three
claimed operations: `getKeypairForUser` is a fourth public method (its
"INTERNAL USE ONLY" marker is only a comment), and calling it returns
the decrypted plaintext secret key of the stored wallet. -/
theorem public_surface_counterexample :
    "getKeypairForUser" ∈ publicMethods ∧
    "getKeypairForUser" ∉ (["createWalletForUser", "getUserStellarAddress",
      "signTransactionForUser"] : List String) ∧
    (getKeypairForUser (fun _ => 0) (fun _ => "G") 9 [aliceSecretRecord] "alice").1 =
      .ok ⟨"G", [7]⟩ :=
  ⟨by decide, by decide, by rfl⟩

/-- **C5, amended** — the exported class exposes seven public methods,
not three; among them `getKeypairForUser` returns to its caller a
`Keypair` whose secret component is exactly the decrypted plaintext
secret key of the stored record, so the plaintext key is recoverable
through the public surface. -/
theorem public_surface_amended (E : Nat → Nat) (pkDerive : List Nat → String) (now : Nat)
    (db : DB) (uid : String) (w : StellarWallet) (kp : Keypair) (db' : DB)
    (log : List WriteEvent)
    (hfind : findUnique db uid = some w)
    (h : getKeypairForUser E pkDerive now db uid = (.ok kp, db', log)) :
    publicMethods = ["createWalletForUser", "getUserStellarAddress", "getUserWallet",
      "getKeypairForUser", "signTransactionForUser", "userHasWallet",
      "getAllWalletAddresses"] ∧
    decryptSecretKey E w.encryptedSecretKey w.encryptionIv w.encryptionTag =
      .ok kp.secret := by
  refine ⟨rfl, ?_⟩
  simp only [getKeypairForUser, getUserWallet, hfind] at h
  cases hdec : decryptSecretKey E w.encryptedSecretKey w.encryptionIv w.encryptionTag with
  | error e => rw [hdec] at h; cases h
  | ok s =>
    rw [hdec] at h
    simp only [Prod.mk.injEq, Except.ok.injEq] at h
    rw [← h.1]

/-- Witness for the amended C5 on alice's stored wallet. -/
theorem public_surface_amended_witness :
    publicMethods = ["createWalletForUser", "getUserStellarAddress", "getUserWallet",
      "getKeypairForUser", "signTransactionForUser", "userHasWallet",
      "getAllWalletAddresses"] ∧
    decryptSecretKey (fun _ => 0) aliceSecretRecord.encryptedSecretKey
      aliceSecretRecord.encryptionIv aliceSecretRecord.encryptionTag =
      .ok (Keypair.mk "G" [7]).secret :=
  public_surface_amended (fun _ => 0) (fun _ => "G") 9 [aliceSecretRecord] "alice"
    aliceSecretRecord ⟨"G", [7]⟩
    [⟨"w1", "alice", "GALICE", "07", "000000000000000000000000",
      "00000000000000000000000000000000", 0, some 9⟩]
    [.touchedLastUsed "w1"] (by rfl) (by rfl)

/-- A 64-character key string made of non-hex characters. -/
def zKey : String := String.mk (List.replicate 64 'z')

/-- **C6, counterexample** — the constructor accepts any 64-character
string: `zKey` is 64 chars of `z`, decodes to zero bytes of key
material under `Buffer.from(·, "hex")` (which truncates at the first
invalid pair), yet construction succeeds, so "initializes successfully
iff the key decodes to exactly 32 bytes" is false and the bad key is
only discovered at the first encrypt or decrypt. -/
theorem masterkey_validation_counterexample :
    serviceConstructor (some zKey) none = .ok ⟨hexDecode zKey⟩ ∧
    (hexDecode zKey).length ≠ 32 ∧ hexDecode zKey = [] :=
  ⟨by rfl, by decide, by decide⟩

/-- **C6, amended** — construction succeeds iff the selected key string
(the explicit argument when truthy, else the environment variable) is
present, non-empty, and has exactly 64 characters; hex validity of those
characters is never checked, so the decoded master key may be shorter
than 32 bytes. -/
theorem masterkey_validation_amended (keyArg envKey : Option String) :
    (∃ svc, serviceConstructor keyArg envKey = .ok svc) ↔
      (∃ k, selectKeyHex keyArg envKey = some k ∧ k ≠ "" ∧ k.length = 64) := by
  constructor
  · rintro ⟨svc, hsvc⟩
    unfold serviceConstructor at hsvc
    cases hsel : selectKeyHex keyArg envKey with
    | none => rw [hsel] at hsvc; cases hsvc
    | some k =>
      rw [hsel] at hsvc
      by_cases hk : k = ""
      · simp [hk] at hsvc
      · by_cases hl : k.length = 64
        · exact ⟨k, rfl, hk, hl⟩
        · simp [hk, hl] at hsvc
  · rintro ⟨k, hsel, hk, hl⟩
    refine ⟨⟨hexDecode k⟩, ?_⟩
    unfold serviceConstructor
    rw [hsel]
    simp [hk, hl]

/-- **C7** — WalletNotFound on absent records: with no record for `uid`,
`getUserStellarAddress` fails with the wallet-not-found error, writes
nothing and leaves the store unchanged (a pure read, never a create),
and `signTransactionForUser` fails with the same wallet-not-found error
— for every cipher instance, so before and independent of any decrypt —
also without touching the store. -/
theorem notfound_contract (E : Nat → Nat) (pkDerive : List Nat → String)
    (signFn : String → List Nat → String) (now : Nat) (db : DB) (uid xdr : String)
    (h : findUnique db uid = none) :
    getUserStellarAddress db uid = (.error (.walletNotFound uid), db, []) ∧
    signTransactionForUser E pkDerive signFn now db uid xdr =
      (.error (.walletNotFound uid), db, []) := by
  constructor
  · simp [getUserStellarAddress, h]
  · simp [signTransactionForUser, getKeypairForUser, getUserWallet, h]

/-- Witness for C7: dave has no record in the empty store. -/
theorem notfound_contract_witness :
    getUserStellarAddress [] "dave" = (.error (.walletNotFound "dave"), [], []) ∧
    signTransactionForUser (fun _ => 0) (fun _ => "G") (fun x _ => x) 3 [] "dave" "XDR" =
      (.error (.walletNotFound "dave"), [], []) :=
  notfound_contract (fun _ => 0) (fun _ => "G") (fun x _ => x) 3 [] "dave" "XDR" (by rfl)

/-- Every record of `db` survives into `db'` with every field except
`lastUsed` unchanged. -/
def PreservesAllButLastUsed (db db' : DB) : Prop :=
  ∀ r ∈ db, ∃ r', r' ∈ db' ∧ r'.id = r.id ∧ r'.userId = r.userId ∧
    r'.stellarPublicKey = r.stellarPublicKey ∧
    r'.encryptedSecretKey = r.encryptedSecretKey ∧
    r'.encryptionIv = r.encryptionIv ∧ r'.encryptionTag = r.encryptionTag ∧
    r'.createdAt = r.createdAt

theorem preserves_refl (db : DB) : PreservesAllButLastUsed db db :=
  fun r hr => ⟨r, hr, rfl, rfl, rfl, rfl, rfl, rfl, rfl⟩

theorem preserves_of_map_touch (db : DB) (wid : String) (now : Nat) :
    PreservesAllButLastUsed db
      (db.map (fun r => if r.id == wid then { r with lastUsed := some now } else r)) := by
  intro r hr
  refine ⟨if r.id == wid then { r with lastUsed := some now } else r,
    List.mem_map_of_mem _ hr, ?_⟩
  by_cases h : (r.id == wid) = true <;> simp [h]

/-- **C8** — Frame on WalletRecord: every operation of the subsystem
preserves every field except `lastUsed` of every existing record (the
pure reads do not change the store at all), and a successful
`signTransactionForUser` performs exactly one persistent write — the
`lastUsed` touch of the signing user's record, set on the successful
decrypt — leaving an updated copy of that record in the store. -/
theorem frame_on_wallet_record :
    (∀ (E : Nat → Nat) (kp : Keypair) (iv : List Nat) (id1 : String) (now : Nat)
        (db : DB) (uid : String),
      PreservesAllButLastUsed db (createWalletForUser E kp iv id1 now db uid).2.1) ∧
    (∀ (db : DB) (uid : String), (getUserStellarAddress db uid).2.1 = db ∧
      (getUserStellarAddress db uid).2.2 = []) ∧
    (∀ (db : DB) (uid : String), (getUserWallet db uid).2.1 = db ∧
      (getUserWallet db uid).2.2 = []) ∧
    (∀ (db : DB) (uid : String), (userHasWallet db uid).2.1 = db ∧
      (userHasWallet db uid).2.2 = []) ∧
    (∀ db : DB, (getAllWalletAddresses db).2.1 = db ∧
      (getAllWalletAddresses db).2.2 = []) ∧
    (∀ (E : Nat → Nat) (pkDerive : List Nat → String) (now : Nat) (db : DB)
        (uid : String),
      PreservesAllButLastUsed db (getKeypairForUser E pkDerive now db uid).2.1) ∧
    (∀ (E : Nat → Nat) (pkDerive : List Nat → String)
        (signFn : String → List Nat → String) (now : Nat) (db : DB) (uid xdr : String)
        (w : StellarWallet) (res : String) (db' : DB) (log : List WriteEvent),
      findUnique db uid = some w →
      signTransactionForUser E pkDerive signFn now db uid xdr = (.ok res, db', log) →
      log = [.touchedLastUsed w.id] ∧ PreservesAllButLastUsed db db' ∧
        { w with lastUsed := some now } ∈ db') := by
  refine ⟨?_, ?_, ?_, ?_, ?_, ?_, ?_⟩
  · intro E kp iv id1 now db uid
    cases hfind : findUnique db uid with
    | some w =>
      simp only [createWalletForUser, createWalletForUserRace, hfind]
      exact preserves_refl db
    | none =>
      have hf' : db.find? (fun r => r.userId == uid) = none := hfind
      simp only [createWalletForUser, createWalletForUserRace, hfind, prismaCreate, hf',
        Option.isSome_none, Bool.false_eq_true, if_false]
      intro r hr
      exact ⟨r, List.mem_append_left _ hr, rfl, rfl, rfl, rfl, rfl, rfl, rfl⟩
  · intro db uid
    cases hfind : findUnique db uid <;> simp [getUserStellarAddress, hfind]
  · intro db uid
    cases hfind : findUnique db uid <;> simp [getUserWallet, hfind]
  · intro db uid
    exact ⟨rfl, rfl⟩
  · intro db
    exact ⟨rfl, rfl⟩
  · intro E pkDerive now db uid
    cases hfind : findUnique db uid with
    | none =>
      simp only [getKeypairForUser, getUserWallet, hfind]
      exact preserves_refl db
    | some w =>
      cases hdec : decryptSecretKey E w.encryptedSecretKey w.encryptionIv
          w.encryptionTag with
      | error e =>
        simp only [getKeypairForUser, getUserWallet, hfind, hdec]
        exact preserves_refl db
      | ok s =>
        simp only [getKeypairForUser, getUserWallet, hfind, hdec]
        exact preserves_of_map_touch db w.id now
  · intro E pkDerive signFn now db uid xdr w res db' log hfind h
    simp only [signTransactionForUser, getKeypairForUser, getUserWallet, hfind] at h
    cases hdec : decryptSecretKey E w.encryptedSecretKey w.encryptionIv
        w.encryptionTag with
    | error e => rw [hdec] at h; cases h
    | ok s =>
      rw [hdec] at h
      simp only [Prod.mk.injEq, Except.ok.injEq] at h
      obtain ⟨hres, hdb, hlog⟩ := h
      subst hdb
      refine ⟨hlog.symm, preserves_of_map_touch db w.id now, ?_⟩
      have hw : w ∈ db := List.mem_of_find?_eq_some hfind
      have hmapped := List.mem_map_of_mem
        (fun r => if r.id == w.id then { r with lastUsed := some now } else r) hw
      simpa using hmapped

/-- Witness for C8's signing conjunct on alice's stored wallet. -/
theorem frame_on_wallet_record_witness :
    ([WriteEvent.touchedLastUsed "w1"] : List WriteEvent) =
        [.touchedLastUsed aliceSecretRecord.id] ∧
    PreservesAllButLastUsed [aliceSecretRecord]
      [⟨"w1", "alice", "GALICE", "07", "000000000000000000000000",
        "00000000000000000000000000000000", 0, some 9⟩] ∧
    { aliceSecretRecord with lastUsed := some 9 } ∈
      ([⟨"w1", "alice", "GALICE", "07", "000000000000000000000000",
        "00000000000000000000000000000000", 0, some 9⟩] : DB) :=
  frame_on_wallet_record.2.2.2.2.2.2 (fun _ => 0) (fun _ => "G") (fun x _ => x) 9
    [aliceSecretRecord] "alice" "XDR" aliceSecretRecord "XDR"
    [⟨"w1", "alice", "GALICE", "07", "000000000000000000000000",
      "00000000000000000000000000000000", 0, some 9⟩]
    [.touchedLastUsed "w1"] (by rfl) (by rfl)

/-- The record the demo path writes for alice, and the one it writes for
bob: both carry the one fixed demo public key. -/
def demoRecA : StellarWallet :=
  ⟨"m1", "alice", "GDEMO", "07", "000000000000000000000000",
    "00000000000000000000000000000000", 0, some 0⟩

/-- See `demoRecA`. -/
def demoRecB : StellarWallet :=
  ⟨"m2", "bob", "GDEMO", "07", "000000000000000000000000",
    "00000000000000000000000000000000", 0, some 0⟩

/-- **C9, counterexample** — in the demo variant, creating wallets for
the distinct users alice and bob reaches a store whose two records share
the same public key (the fixed demo keypair's), violating public-key
uniqueness. -/
theorem publickey_uniqueness_counterexample :
    demoCreateWalletForUser (fun _ => 0) ⟨"GDEMO", [7]⟩ (List.replicate 12 0) "m1" 0
      [] "alice" = (.ok ⟨"alice", "GDEMO", "m1"⟩, [demoRecA]) ∧
    demoCreateWalletForUser (fun _ => 0) ⟨"GDEMO", [7]⟩ (List.replicate 12 0) "m2" 0
      [demoRecA] "bob" = (.ok ⟨"bob", "GDEMO", "m2"⟩, [demoRecA, demoRecB]) ∧
    demoRecA.userId ≠ demoRecB.userId ∧
    demoRecA.stellarPublicKey = demoRecB.stellarPublicKey :=
  ⟨by rfl, by rfl, by decide, by rfl⟩

/-- **C9, amended** — the schema declares a unique index on
`stellar_public_key` for the production table, but the demo variant
enforces nothing of the sort: every wallet it creates carries the public
key of the one fixed demo keypair, so wallet creation for two distinct
userIds yields the *same* public key, not distinct ones. -/
theorem publickey_uniqueness_amended (E1 E2 : Nat → Nat) (kp : Keypair)
    (iv1 iv2 : List Nat) (id1 id2 : String) (now1 now2 : Nat) (mw db1 db2 : DB)
    (uid1 uid2 : String) (res1 res2 : CreateWalletResult)
    (h1f : findUnique mw uid1 = none)
    (h1 : demoCreateWalletForUser E1 kp iv1 id1 now1 mw uid1 = (.ok res1, db1))
    (h2f : findUnique db1 uid2 = none)
    (h2 : demoCreateWalletForUser E2 kp iv2 id2 now2 db1 uid2 = (.ok res2, db2)) :
    res1.stellarPublicKey = res2.stellarPublicKey := by
  simp only [demoCreateWalletForUser, h1f, Prod.mk.injEq, Except.ok.injEq] at h1
  simp only [demoCreateWalletForUser, h2f, Prod.mk.injEq, Except.ok.injEq] at h2
  rw [← h1.1, ← h2.1]

/-- Witness for the amended C9: two fresh demo creations for carol and
dave yield the same public key. -/
theorem publickey_uniqueness_amended_witness :
    (CreateWalletResult.mk "carol" "GDEMO" "m1").stellarPublicKey =
      (CreateWalletResult.mk "dave" "GDEMO" "m2").stellarPublicKey :=
  publickey_uniqueness_amended (fun _ => 0) (fun _ => 0) ⟨"GDEMO", [7]⟩
    (List.replicate 12 0) (List.replicate 12 0) "m1" "m2" 0 0 []
    [⟨"m1", "carol", "GDEMO", "07", "000000000000000000000000",
      "00000000000000000000000000000000", 0, some 0⟩]
    [⟨"m1", "carol", "GDEMO", "07", "000000000000000000000000",
        "00000000000000000000000000000000", 0, some 0⟩,
      ⟨"m2", "dave", "GDEMO", "07", "000000000000000000000000",
        "00000000000000000000000000000000", 0, some 0⟩]
    "carol" "dave" ⟨"carol", "GDEMO", "m1"⟩ ⟨"dave", "GDEMO", "m2"⟩
    (by rfl) (by rfl) (by rfl) (by rfl)

/-- **C10** — Singleton accessor ignores later keys: if the first call
to `getStellarWalletService` (with no instance yet) succeeds with
instance `s1`, then the saved instance is `s1`, `s1` was built by the
constructor from the *first* call's key argument and environment, and
any later call — whatever key it passes — returns `s1` unchanged. -/
theorem singleton_ignores_later_keys (k1 env1 : Option String)
    (s1 : StellarWalletService) (st1 : Option StellarWalletService)
    (h : getStellarWalletService none k1 env1 = .ok (s1, st1)) :
    st1 = some s1 ∧ serviceConstructor k1 env1 = .ok s1 ∧
    ∀ k2 env2, getStellarWalletService st1 k2 env2 = .ok (s1, st1) := by
  unfold getStellarWalletService at h
  cases hc : serviceConstructor k1 env1 with
  | error e => rw [hc] at h; cases h
  | ok s =>
    rw [hc] at h
    simp only [Except.ok.injEq, Prod.mk.injEq] at h
    obtain ⟨hs, hst⟩ := h
    subst hs
    refine ⟨hst.symm, rfl, ?_⟩
    intro k2 env2
    rw [← hst]
    rfl

/-- Witness for C10: the singleton built from a concrete all-zero key
ignores a different 64-character key passed later. -/
theorem singleton_ignores_later_keys_witness :
    (some (StellarWalletService.mk (hexDecode (String.mk (List.replicate 64 '0')))) =
      some (StellarWalletService.mk (hexDecode (String.mk (List.replicate 64 '0'))))) ∧
    serviceConstructor (some (String.mk (List.replicate 64 '0'))) none =
      .ok ⟨hexDecode (String.mk (List.replicate 64 '0'))⟩ ∧
    getStellarWalletService
        (some ⟨hexDecode (String.mk (List.replicate 64 '0'))⟩) (some zKey) none =
      .ok (⟨hexDecode (String.mk (List.replicate 64 '0'))⟩,
        some ⟨hexDecode (String.mk (List.replicate 64 '0'))⟩) := by
  have h := singleton_ignores_later_keys (some (String.mk (List.replicate 64 '0'))) none
    ⟨hexDecode (String.mk (List.replicate 64 '0'))⟩
    (some ⟨hexDecode (String.mk (List.replicate 64 '0'))⟩) (by rfl)
  exact ⟨by rw [h.1], h.2.1, h.2.2 (some zKey) none⟩

end JubyStellar
